import Mathlib

/-!
Shallow embedding of the score-reconciliation core of the `ddr_score_websites`
repository, and proofs about it.

Sources embedded here:
- `src/scores.rs` — the five-slot `Scores` table, `ScoreCombo`, `LampType`
  and its conversions, `Scores::update`, `Scores::update_from_sanbai_score_entry`,
  `Player::update_skill_attack_inner`;
- `src/ddr_song.rs` — `normalize_name`, `DDRSong`,
  `DDRSong::new_from_sanbai_and_skillattack`, `DDRSong::from_combining_song_lists`;
- `src/sanbai.rs` / `src/website_backends/sanbai.rs` — `SanbaiSong`,
  `SanbaiScoreEntry`, `num_to_sanbai_combo`;
- `src/skill_attack.rs` / `src/website_backends/skill_attack.rs` —
  `SkillAttackSong`, the lamp-code conversion inside `get_scores_inner`;
- `src/lib.rs` — `process_skill_attack_score` and the `update_scores`
  select loop of `DDRDatabase`.

Modelling conventions:
- Rust `u8`/`u16`/`u32` counters and codes become `Nat` (no arithmetic in the
  embedded code can overflow the original width: scores are only ever copied or
  maximized, never added).
- A Rust `panic!` / `todo!` is a distinct outcome, never an `Err`: partial
  operations return `Option` (with `none` = panic) or `RustOutcome`.
- `HashMap<SongId, Scores>` becomes a lookup function `String → Option Scores`;
  `HashMap<u16, Scores>` becomes an association list together with a last-insert-wins
  lookup (`hashLookup`), matching `HashMap` collect/insert overwrite semantics.
- Song ids are kept as the `String` form fed to `SongId::from_str`; the `u128`
  packing in `ddr_song/song_id.rs` only changes the representation of equality,
  not its meaning, and no claim depends on it.
-/

namespace DDR

/-- The lamp (combo) classification from `src/scores.rs`, in Rust declaration
order, which `derive(PartialOrd, Ord)` turns into the total order used by all
merges. -/
inductive LampType where
  | FailOrPass
  | Fail
  | NoCombo
  | Life4Combo
  | GoodGreatCombo
  | GoodCombo
  | GreatCombo
  | PerfectCombo
  | MarvelousCombo
deriving DecidableEq, Repr

/-- Discriminant of `LampType`, mirroring Rust enum ordering. -/
def LampType.toNat : LampType → Nat
  | .FailOrPass => 0
  | .Fail => 1
  | .NoCombo => 2
  | .Life4Combo => 3
  | .GoodGreatCombo => 4
  | .GoodCombo => 5
  | .GreatCombo => 6
  | .PerfectCombo => 7
  | .MarvelousCombo => 8

/-- The derived `Ord` order on `LampType` (declaration order). -/
def lampLe (a b : LampType) : Prop := a.toNat ≤ b.toNat

instance (a b : LampType) : Decidable (lampLe a b) := by
  unfold lampLe; infer_instance

/-- `std::cmp::max` at type `LampType`: returns the second argument unless the
first is strictly greater. -/
def lampMax (a b : LampType) : LampType := if b.toNat < a.toNat then a else b

/-- `LampType::from_skill_attack_index` from `src/scores.rs`: Skill Attack
combo codes 0-3; anything else is `None`. -/
def LampType.from_skill_attack_index (index : Nat) : Option LampType :=
  match index with
  | 0 => some .FailOrPass
  | 1 => some .GoodGreatCombo
  | 2 => some .PerfectCombo
  | 3 => some .MarvelousCombo
  | _ => none

/-- `LampType::from_sanbai_lamp_index` from `src/scores.rs`: Sanbai lamp codes
0-6; anything else is `None`. -/
def LampType.from_sanbai_lamp_index (index : Nat) : Option LampType :=
  match index with
  | 0 => some .Fail
  | 1 => some .NoCombo
  | 2 => some .Life4Combo
  | 3 => some .GoodCombo
  | 4 => some .GreatCombo
  | 5 => some .PerfectCombo
  | 6 => some .MarvelousCombo
  | _ => none

/-- `ScoreCombo` from `src/scores.rs`: score and lamp for one difficulty. -/
structure ScoreCombo where
  score : Nat
  lamp : LampType
deriving DecidableEq, Repr

/-- `ScoreCombo::maximize`: take the max of `score` and the max of `lamp`,
independently. -/
def ScoreCombo.maximize (s other : ScoreCombo) : ScoreCombo :=
  { s with
    score := max s.score other.score
    lamp := lampMax s.lamp other.lamp }

/-- `Scores` from `src/scores.rs`: the five optional single-play slots. -/
structure Scores where
  beg_score : Option ScoreCombo := none
  basic_score : Option ScoreCombo := none
  diff_score : Option ScoreCombo := none
  expert_score : Option ScoreCombo := none
  chal_score : Option ScoreCombo := none
deriving DecidableEq, Repr

/-- `Default::default()` for `Scores`: all five slots empty. -/
def scoresDefault : Scores := {}

/-- `impl Index<usize> for Scores`: slots 0-4; any other index panics, which we
model as `none`. -/
def Scores.index (s : Scores) : Nat → Option (Option ScoreCombo)
  | 0 => some s.beg_score
  | 1 => some s.basic_score
  | 2 => some s.diff_score
  | 3 => some s.expert_score
  | 4 => some s.chal_score
  | _ + 5 => none

/-- `impl IndexMut<usize> for Scores`, as a functional slot write: slots 0-4;
any other index panics (`none`). -/
def Scores.setIdx (s : Scores) (i : Nat) (v : Option ScoreCombo) : Option Scores :=
  match i with
  | 0 => some { s with beg_score := v }
  | 1 => some { s with basic_score := v }
  | 2 => some { s with diff_score := v }
  | 3 => some { s with expert_score := v }
  | 4 => some { s with chal_score := v }
  | _ + 5 => none

/-- The `match` inside `Scores::update` combining one pair of slots. -/
def slotCombine : Option ScoreCombo → Option ScoreCombo → Option ScoreCombo
  | some our_score, some other_score => some (our_score.maximize other_score)
  | none, some only_score => some only_score
  | some only_score, none => some only_score
  | none, none => none

/-- `Scores::update` from `src/scores.rs`: for each `level_index` in `0..=4`,
`self[level_index] = slotCombine(self[level_index], other[level_index])`.
Index panics are propagated as `none` (they provably never happen here). -/
def Scores.update (s other : Scores) : Option Scores :=
  [0, 1, 2, 3, 4].foldlM
    (fun acc level_index => do
      let a ← acc.index level_index
      let b ← other.index level_index
      acc.setIdx level_index (slotCombine a b))
    s

/-- The total wrapper callers use: `Scores.update` never panics (see
`Scores.update_eq` below), so the `getD` fallback is never taken. -/
def Scores.updateT (s other : Scores) : Scores := (s.update other).getD s

/-- `SanbaiScoreEntry` from the Sanbai backend: one score row. -/
structure SanbaiScoreEntry where
  song_id : String
  difficulty : Nat
  score : Nat
  lamp : LampType
deriving DecidableEq, Repr

/-- The slot-level `match` of `Scores::update_from_sanbai_score_entry`:
maximize score and lamp against an existing combo, or install the entry into an
empty slot. -/
def sanbaiCombine (score_combo : Option ScoreCombo) (sanbai_entry : SanbaiScoreEntry) :
    Option ScoreCombo :=
  match score_combo with
  | some difficulty =>
    some { difficulty with
            score := max difficulty.score sanbai_entry.score
            lamp := lampMax difficulty.lamp sanbai_entry.lamp }
  | none => some { score := sanbai_entry.score, lamp := sanbai_entry.lamp }

/-- `Scores::update_from_sanbai_score_entry` from `src/scores.rs`: indexes the
slot named by `sanbai_entry.difficulty` (panic, i.e. `none`, for 5 and above)
and rewrites it through `sanbaiCombine`. -/
def Scores.update_from_sanbai_score_entry (s : Scores) (sanbai_entry : SanbaiScoreEntry) :
    Option Scores := do
  let score_combo ← s.index sanbai_entry.difficulty
  s.setIdx sanbai_entry.difficulty (sanbaiCombine score_combo sanbai_entry)

/-- Outcome of a Rust computation that can only succeed or panic. -/
inductive RustOutcome (α : Type) where
  | ok (a : α)
  | panicked
deriving DecidableEq, Repr

/-- The error enum from `src/error.rs` (foreign payloads dropped). -/
inductive Error where
  | httpError
  | otherParseError (msg : String)
  | sanbaiSongJsonParseError
  | sanbaiScoreJsonParseError
  | sanbaiBpmHtmlParseError
  | skillAttackHtmlParseError (msg : String)
deriving DecidableEq, Repr

/-- `num_to_sanbai_combo` from `src/website_backends/sanbai.rs`: converts a raw
Sanbai lamp code during deserialization. An unrecognized code hits
`todo!("Add unrecognized number error")`, i.e. it panics instead of returning a
parse error. -/
def num_to_sanbai_combo (num : Nat) : RustOutcome LampType :=
  match LampType.from_sanbai_lamp_index num with
  | some c => .ok c
  | none => .panicked

/-- The combo-code conversion inside `get_scores_inner` in
`src/website_backends/skill_attack.rs`: `LampType::from_skill_attack_index`
followed by `ok_or(Error::SkillAttackHtmlParseError(...))`. -/
def skill_attack_combo_of_code (combo_index : Nat) : Except Error LampType :=
  match LampType.from_skill_attack_index combo_index with
  | some lamp => .ok lamp
  | none => .error (Error.skillAttackHtmlParseError "Unrecognized skill attack lamp type")

/-!
## Song catalog model (`src/ddr_song.rs`, `src/sanbai.rs`, `src/skill_attack.rs`)
-/

/-- `DDRVersion` from `src/sanbai.rs`. -/
inductive DDRVersion where
  | UnknownVersion
  | DDRA20Plus
  | DDRA20
  | DDRA
  | DDR2014
  | DDR2013
  | DDRX3
  | DDRX2
  | DDRX
  | DDRSuperNOVA2
  | DDRSuperNOVA
  | DDREXTREME
  | DDRMAX2
  | DDRMAX
  | DDR5thMIX
  | DDR4thMIX
  | DDR3rdMIX
  | DDR2ndMIX
  | DDR1stMIX
deriving DecidableEq, Repr

/-- `Difficulties` from `src/sanbai.rs`: the `[u8; 9]` rating array. -/
structure Difficulties where
  vals : List Nat
deriving DecidableEq, Repr

/-- `LockTypes` from `src/sanbai.rs`: the `[i32; 9]` lock-condition array. -/
structure LockTypes where
  vals : List Int
deriving DecidableEq, Repr

/-- `SanbaiSong` from `src/sanbai.rs` (the primary-catalog record). -/
structure SanbaiSong where
  song_id : String
  song_name : String
  alternate_name : Option String := none
  romanized_name : Option String := none
  searchable_name : Option String := none
  version_num : DDRVersion := .UnknownVersion
  deleted : Bool := false
  ratings : Difficulties := ⟨[0, 0, 0, 0, 0, 0, 0, 0, 0]⟩
  lock_types : Option LockTypes := none
deriving DecidableEq, Repr

/-- `SkillAttackSong` from `src/skill_attack.rs` (the secondary-catalog
record): a per-pull local integer index plus a free-text title. -/
structure SkillAttackSong where
  skill_attack_index : Nat
  song_name : String
deriving DecidableEq, Repr

/-- The set of `char::is_whitespace` code points (Unicode `White_Space`),
which Rust uses in `normalize_name`'s filter. -/
def rustIsWhitespace (c : Char) : Bool :=
  c.toNat ∈ [0x09, 0x0A, 0x0B, 0x0C, 0x0D, 0x20, 0x85, 0xA0, 0x1680,
    0x2000, 0x2001, 0x2002, 0x2003, 0x2004, 0x2005, 0x2006, 0x2007,
    0x2008, 0x2009, 0x200A, 0x2028, 0x2029, 0x202F, 0x205F, 0x3000]

/-- The fixed fold table inside `normalize_name` in `src/ddr_song.rs`
(full-width punctuation, smart quotes, two diacritic variants). -/
def normalizeFoldChar (c : Char) : Char :=
  match c with
  | '！' => '!'
  | '（' => '('
  | '）' => ')'
  | '“' => Char.ofNat 34
  | '”' => Char.ofNat 34
  | 'ã' => 'a'
  | 'ā' => 'a'
  | '＋' => '+'
  | '’' => Char.ofNat 39
  | other => other

/-- `normalize_name` from `src/ddr_song.rs`: drop whitespace, apply the fold
table, expand the single ellipsis glyph to three literal periods. -/
def normalize_name (input : String) : String :=
  String.mk
    (((input.data.filter (fun c => !rustIsWhitespace c)).map normalizeFoldChar).flatMap
      (fun c => if c = '…' then ['.', '.', '.'] else [c]))

/-- Splitting on the literal slash character, as Rust's `str::split('/')`
(used for multi-name Sanbai fields). -/
def splitOnSlash (s : List Char) : List (List Char) :=
  match s with
  | [] => [[]]
  | c :: rest =>
    match splitOnSlash rest with
    | h :: t => if c = '/' then [] :: h :: t else (c :: h) :: t
    | [] => if c = '/' then [] :: [[]] else [[c]]

/-- ASCII lowercasing per character. Rust's `str::to_lowercase` additionally
lowercases non-ASCII letters; the search-name claims here never depend on the
non-ASCII cases. -/
def asciiLower (c : Char) : Char :=
  if 65 ≤ c.toNat ∧ c.toNat ≤ 90 then Char.ofNat (c.toNat + 32) else c

/-- `str::to_lowercase` over the string's characters. -/
def strToLower (s : String) : String := String.mk (s.data.map asciiLower)

/-- `str::split('/')` at the `String` level. -/
def strSplitSlash (s : String) : List String := (splitOnSlash s.data).map String.mk

/-- `DDRSong` from `src/ddr_song.rs`: a canonical song. -/
structure DDRSong where
  song_id : String
  skill_attack_index : Option Nat
  song_name : String
  romanized_name : Option String
  search_names : List String
  version_num : DDRVersion
  deleted : Bool
  ratings : Difficulties
  lock_types : Option LockTypes
deriving DecidableEq, Repr

/-- `DDRSong::new_from_sanbai_and_skillattack` from `src/ddr_song.rs`:
the search-name chain is romanized, alternate, searchable (each split on the
slash), then the raw song name, all lowercased; the skill attack index is
carried over only when a matched secondary record is given. -/
def DDRSong.new_from_sanbai_and_skillattack (sanbai : SanbaiSong)
    (skill_attack : Option SkillAttackSong) : DDRSong :=
  let search_names : List String :=
    (((sanbai.romanized_name.toList ++ sanbai.alternate_name.toList ++
        sanbai.searchable_name.toList).flatMap strSplitSlash) ++
      [sanbai.song_name]).map strToLower
  { song_id := sanbai.song_id
    skill_attack_index := skill_attack.map (fun s => s.skill_attack_index)
    song_name := sanbai.song_name
    romanized_name := sanbai.romanized_name
    search_names := search_names
    version_num := sanbai.version_num
    deleted := sanbai.deleted
    ratings := sanbai.ratings
    lock_types := sanbai.lock_types }

/-- Byte-lexicographic strict order on character lists: `String::cmp` in Rust
compares UTF-8 bytes, which orders exactly by code point. -/
def listCharLt : List Char → List Char → Bool
  | _, [] => false
  | [], _ :: _ => true
  | a :: as, b :: bs =>
    if a.toNat < b.toNat then true
    else if b.toNat < a.toNat then false
    else listCharLt as bs

/-- Strict `String::cmp` order. -/
def nameLt (a b : String) : Bool := listCharLt a.data b.data

/-- Non-strict `String::cmp` order, used as the sort comparator. -/
def nameLe (a b : String) : Bool := !nameLt b a

/-- Insertion of one element into a sorted list, for `insertionSortBy`. -/
def orderedInsertBy {α : Type} (le : α → α → Bool) (a : α) : List α → List α
  | [] => [a]
  | b :: l => if le a b then a :: b :: l else b :: orderedInsertBy le a l

/-- A stable sort with a boolean comparator (insertion sort). Rust's
`slice::sort_by` is also stable, so the two agree on every comparator that is
a total preorder. -/
def insertionSortBy {α : Type} (le : α → α → Bool) : List α → List α
  | [] => []
  | a :: l => orderedInsertBy le a (insertionSortBy le l)

/-- The `sort_by(|(a, _), (b, _)| a.cmp(b))` calls in
`from_combining_song_lists`: a stable sort of the `(normalized name, record)`
pairs by the normalized-name component in `String::cmp` (byte) order. -/
def sortByNormalized {α : Type} (l : List (String × α)) : List (String × α) :=
  insertionSortBy (fun a b => nameLe a.1 b.1) l

/-- The two-cursor merge loop of `DDRSong::from_combining_song_lists`, on the
already-sorted `(normalized name, record)` lists. The three branches mirror
`sa_candidate.0.cmp(&sanbai_candidate.0)`: `Less` skips the Skill Attack
record, `Greater` emits a Sanbai-only song, `Equal` emits a matched song; when
Skill Attack runs out first, the leftover Sanbai records are emitted unmatched;
when Sanbai runs out first, the loop breaks. -/
def combineLoop : List (String × SkillAttackSong) → List (String × SanbaiSong) → List DDRSong
  | [], [] => []
  | [], (_, sanbai_song) :: rest =>
    DDRSong.new_from_sanbai_and_skillattack sanbai_song none :: combineLoop [] rest
  | _ :: _, [] => []
  | (na, sa) :: sas, (nb, sb) :: sbs =>
    if nameLt na nb then
      combineLoop sas ((nb, sb) :: sbs)
    else if nameLt nb na then
      DDRSong.new_from_sanbai_and_skillattack sb none :: combineLoop ((na, sa) :: sas) sbs
    else
      DDRSong.new_from_sanbai_and_skillattack sb (some sa) :: combineLoop sas sbs
  termination_by a b => a.length + b.length

/-- `DDRSong::from_combining_song_lists` from `src/ddr_song.rs`: normalize and
sort both catalogs, then run the merge join. -/
def DDRSong.from_combining_song_lists (sanbai_songs : List SanbaiSong)
    (skill_attack_songs : List SkillAttackSong) : List DDRSong :=
  let sa_normalized :=
    sortByNormalized (skill_attack_songs.map (fun s => (normalize_name s.song_name, s)))
  let sanbai_normalized :=
    sortByNormalized (sanbai_songs.map (fun s => (normalize_name s.song_name, s)))
  combineLoop sa_normalized sanbai_normalized

/-!
## Score attribution and the player table
(`Player::update_skill_attack_inner` in `src/scores.rs`,
`process_skill_attack_score` in `src/lib.rs`)
-/

/-- A player's `HashMap<SongId, Scores>` as a lookup function. -/
def SongMap : Type := String → Option Scores

/-- The empty score table. -/
def SongMap.empty : SongMap := fun _ => none

/-- Pointwise update of the map model, used wherever the Rust code writes
through an `Entry`. -/
def SongMap.insert (m : SongMap) (k : String) (v : Scores) : SongMap :=
  fun k' => if k' = k then some v else m k'

/-- Lookup in an association list with `HashMap` insert semantics: a later
insert with the same key overwrites an earlier one, so the last matching entry
wins. -/
def hashLookup {α : Type} (l : List (Nat × α)) (k : Nat) : Option α :=
  (l.reverse.find? (fun p => decide (p.1 = k))).map Prod.snd

/-- `Player` from `src/scores.rs`. -/
structure Player where
  name : String
  ddr_code : Nat
  sanbai_username : Option String
  scores : SongMap

/-- The `song_list_index` mapping built inside
`Player::update_skill_attack_inner`: skill attack index to song id, for
catalog songs that carry an index. -/
def song_list_index (song_list : List DDRSong) : List (Nat × String) :=
  song_list.filterMap (fun s => s.skill_attack_index.map (fun sa_index => (sa_index, s.song_id)))

/-- `Player::update_skill_attack_inner` from `src/scores.rs`: every fetched
Skill Attack row whose index resolves through `song_list_index` is merged into
the player's table (`and_modify(update)` on an existing entry, `or_insert` of
the raw row otherwise); rows with an unknown index are dropped. The `HashMap`
iteration over the fetched rows becomes a fold over the association list. -/
def Player.update_skill_attack_inner (p : Player) (song_list : List DDRSong)
    (sa_scores : List (Nat × Scores)) : Player :=
  { p with
    scores := sa_scores.foldl
      (fun m pr =>
        match hashLookup (song_list_index song_list) pr.1 with
        | none => m
        | some song_id =>
          match m song_id with
          | some inner_score => m.insert song_id (inner_score.updateT pr.2)
          | none => m.insert song_id pr.2)
      p.scores }

/-- `process_skill_attack_score` from `src/lib.rs`: walk the catalog, and for
every song whose `skill_attack_index` appears in the fetched rows, merge that
row into the player's table through `entry(..).or_default().update(..)`.
The `num_new_scores` counter the Rust function also returns is telemetry the
claims do not touch and is not modelled. -/
def process_skill_attack_score (playerScores : SongMap)
    (sa_scores : List (Nat × Scores)) (songs : List DDRSong) : SongMap :=
  songs.foldl
    (fun m s =>
      match s.skill_attack_index with
      | none => m
      | some sa_index =>
        match hashLookup sa_scores sa_index with
        | none => m
        | some new_score =>
          m.insert s.song_id (((m s.song_id).getD scoresDefault).updateT new_score))
    playerScores

/-!
## The `update_scores` select loop (`src/lib.rs`)

`DDRDatabase::update_scores` spawns the Sanbai catalog fetch, one Sanbai score
fetch per player with a Sanbai username, the Skill Attack catalog fetch, and
one Skill Attack score fetch per player, then drains them with `tokio::select!`.
The embedding makes the completion order explicit: a run is driven by the list
of fetch results in the order the loop dequeues them. The three guard flags of
the source (`sa_songs_updated`, `skip_skill_attack`, and the implicit
"catalog result consumed once") are carried in the state; a Skill Attack score
result dequeued while its guard is off is exactly a result the loop never
polls, i.e. it is discarded when the loop breaks. The `(num_new_songs,
num_new_scores)` counters are telemetry the claims do not touch and are not
modelled. -/

/-- One completed fetch, in loop-dequeue order. -/
inductive RunEvent where
  | saSongList (res : Except Error (List SkillAttackSong))
  | sanbaiScores (player_index : Nat) (res : Except Error (List SanbaiScoreEntry))
  | saScores (player_index : Nat) (res : Except Error (List (Nat × Scores)))

/-- The mutable state of `DDRDatabase::update_scores`. -/
structure DBState where
  songs : List DDRSong
  players : List Player
  sa_songs_updated : Bool
  skip_skill_attack : Bool

/-- Outcome of a run: normal return, an `Err` propagated by `?`, or a panic. -/
inductive RunResult where
  | ok (st : DBState)
  | err (e : Error)
  | panicked

/-- The Sanbai score branch body (`src/lib.rs`, the `sanbai_user_scores` arm):
each row is merged into the player's table through
`entry(song_id).or_default()` and `update_from_sanbai_score_entry`. The source
caches the `&mut` entry across consecutive rows of the same song; against the
map model that caching is the identity, so the fold re-reads the entry. A
doubles-chart difficulty (5 or more) panics, modelled as `none`. -/
def applySanbaiEntries (m : SongMap) : List SanbaiScoreEntry → Option SongMap
  | [] => some m
  | e :: rest => do
    let upd ← ((m e.song_id).getD scoresDefault).update_from_sanbai_score_entry e
    applySanbaiEntries (m.insert e.song_id upd) rest

/-- The drain loop of `update_scores`, over the dequeue order of the completed
fetches. Mirrors the three `tokio::select!` arms and their guards; an `Err`
from a polled score fetch propagates out through `?`; `self.players[i]` on an
out-of-range index panics. -/
def runEvents (sanbai_songs : List SanbaiSong) : List RunEvent → DBState → RunResult
  | [], st => .ok st
  | ev :: rest, st =>
    match ev with
    | .saSongList res =>
      if !st.sa_songs_updated && !st.skip_skill_attack then
        match res with
        | .error _ =>
          runEvents sanbai_songs rest
            { st with
              songs := sanbai_songs.map (fun song =>
                DDRSong.new_from_sanbai_and_skillattack song none)
              skip_skill_attack := true }
        | .ok skill_attack_songs =>
          runEvents sanbai_songs rest
            { st with
              songs := DDRSong.from_combining_song_lists sanbai_songs skill_attack_songs
              sa_songs_updated := true }
      else
        runEvents sanbai_songs rest st
    | .sanbaiScores i res =>
      match res with
      | .error e => .err e
      | .ok entries =>
        if h : i < st.players.length then
          let p := st.players.get ⟨i, h⟩
          match applySanbaiEntries p.scores entries with
          | none => .panicked
          | some m =>
            runEvents sanbai_songs rest
              { st with players := st.players.set i { p with scores := m } }
        else .panicked
    | .saScores i res =>
      if st.sa_songs_updated && !st.skip_skill_attack then
        match res with
        | .error e => .err e
        | .ok sa_scores =>
          if h : i < st.players.length then
            let p := st.players.get ⟨i, h⟩
            let p' := { p with scores := process_skill_attack_score p.scores sa_scores st.songs }
            runEvents sanbai_songs rest { st with players := st.players.set i p' }
          else .panicked
      else
        runEvents sanbai_songs rest st

/-- `DDRDatabase::update_scores` from `src/lib.rs`: the Sanbai catalog result
is awaited first and its error is propagated by `?`; then the loop drains the
remaining fetches. -/
def update_scores (sanbai_song_list : Except Error (List SanbaiSong))
    (events : List RunEvent) (songs : List DDRSong) (players : List Player) : RunResult :=
  match sanbai_song_list with
  | .error e => .err e
  | .ok sanbai_songs =>
    runEvents sanbai_songs events
      { songs := songs
        players := players
        sa_songs_updated := false
        skip_skill_attack := false }

/-- Pointwise order on optional slots: an empty slot is below everything, a
filled slot is below exactly the filled slots with at least its score and at
least its lamp. `slotLe (some x) none` is `False`: a filled slot may never be
emptied. -/
def slotLe : Option ScoreCombo → Option ScoreCombo → Prop
  | none, _ => True
  | some _, none => False
  | some x, some y => x.score ≤ y.score ∧ lampLe x.lamp y.lamp

/-- Whether an event is a Skill Attack per-player score result. -/
def RunEvent.isSaScores : RunEvent → Bool
  | .saScores _ _ => true
  | _ => false

/-- Every Skill Attack catalog result in the run failed. -/
def saSongEventsFail (events : List RunEvent) : Prop :=
  ∀ res, RunEvent.saSongList res ∈ events → ∃ e, res = Except.error e

/-- Every Sanbai per-player result in the run succeeded, names a player in
range, and carries only singles difficulties (no panic source). -/
def sanbaiEventsOk (events : List RunEvent) (n : Nat) : Prop :=
  ∀ i res, RunEvent.sanbaiScores i res ∈ events →
    ∃ entries, res = Except.ok entries ∧ i < n ∧ ∀ e ∈ entries, e.difficulty ≤ 4

/-- The successful events of a run cannot panic: in-range player indices and,
for Sanbai rows, singles difficulties. -/
def eventNoPanic (n : Nat) : RunEvent → Prop
  | .sanbaiScores i (.ok entries) => i < n ∧ ∀ e ∈ entries, e.difficulty ≤ 4
  | .saScores i (.ok _) => i < n
  | _ => True

/-!
## Score model lemmas and claims C1, C2, C10
-/

/-- `Scores.update` never panics; its closed form. -/
theorem Scores.update_eq (s other : Scores) :
    s.update other = some
      { beg_score := slotCombine s.beg_score other.beg_score
        basic_score := slotCombine s.basic_score other.basic_score
        diff_score := slotCombine s.diff_score other.diff_score
        expert_score := slotCombine s.expert_score other.expert_score
        chal_score := slotCombine s.chal_score other.chal_score } := rfl

theorem Scores.updateT_eq (s other : Scores) :
    s.updateT other =
      { beg_score := slotCombine s.beg_score other.beg_score
        basic_score := slotCombine s.basic_score other.basic_score
        diff_score := slotCombine s.diff_score other.diff_score
        expert_score := slotCombine s.expert_score other.expert_score
        chal_score := slotCombine s.chal_score other.chal_score } := rfl

theorem lampMax_toNat (a b : LampType) : (lampMax a b).toNat = max a.toNat b.toNat := by
  unfold lampMax; split <;> omega

theorem lampLe_refl (a : LampType) : lampLe a a := Nat.le_refl _

theorem lampLe_max_left (a b : LampType) : lampLe a (lampMax a b) := by
  unfold lampLe; rw [lampMax_toNat]; omega

theorem slotLe_refl (a : Option ScoreCombo) : slotLe a a := by
  cases a <;> simp [slotLe, lampLe_refl]

theorem slotLe_combine_left (a b : Option ScoreCombo) : slotLe a (slotCombine a b) := by
  cases a <;> cases b <;>
    simp [slotCombine, slotLe, ScoreCombo.maximize, lampLe_max_left, slotLe_refl,
      lampLe_refl, Nat.le_max_left]

/-- C1: slot merge. For every pair of optional slots at a valid difficulty
index, `Scores::update` stores `slotCombine` of the two slots, and
`slotCombine` is `None` on two `None`s, the present slot when exactly one is
present, and `ScoreCombo::maximize` of both otherwise, whose score is the max
of the scores and whose lamp is the max of the lamps, each taken
independently. -/
theorem c1_slot_merge (s o : Scores) (i : Nat) (a b : Option ScoreCombo)
    (hi : i ≤ 4) (ha : s.index i = some a) (hb : o.index i = some b) :
    (∃ s', s.update o = some s' ∧ s'.index i = some (slotCombine a b)) ∧
    slotCombine none none = none ∧
    (∀ x : ScoreCombo, slotCombine (some x) none = some x ∧ slotCombine none (some x) = some x) ∧
    (∀ x y : ScoreCombo,
      slotCombine (some x) (some y) = some (x.maximize y) ∧
      (x.maximize y).score = max x.score y.score ∧
      (x.maximize y).lamp = lampMax x.lamp y.lamp ∧
      (lampMax x.lamp y.lamp).toNat = max x.lamp.toNat y.lamp.toNat) := by
  refine ⟨?_, rfl, fun x => ⟨rfl, rfl⟩, fun x y => ⟨rfl, rfl, rfl, lampMax_toNat _ _⟩⟩
  refine ⟨_, s.update_eq o, ?_⟩
  interval_cases i <;> simp [Scores.index] at ha hb ⊢ <;> rw [ha, hb]

theorem c1_slot_merge_witness :
    (3 : Nat) ≤ 4 ∧
    Scores.index { chal_score := some ⟨500, .Fail⟩ } 3 = some none ∧
    Scores.index { expert_score := some ⟨990000, .GoodCombo⟩ } 3 =
      some (some ⟨990000, .GoodCombo⟩) ∧
    (∃ s', Scores.update { chal_score := some ⟨500, .Fail⟩ }
        { expert_score := some ⟨990000, .GoodCombo⟩ } = some s' ∧
      s'.index 3 = some (slotCombine none (some ⟨990000, .GoodCombo⟩))) :=
  ⟨by decide, rfl, rfl,
    (c1_slot_merge { chal_score := some ⟨500, .Fail⟩ }
      { expert_score := some ⟨990000, .GoodCombo⟩ } 3 none (some ⟨990000, .GoodCombo⟩)
      (by decide) rfl rfl).1⟩

theorem slotLe_sanbaiCombine (x : Option ScoreCombo) (e : SanbaiScoreEntry) :
    slotLe x (sanbaiCombine x e) := by
  cases x <;> simp [sanbaiCombine, slotLe, Nat.le_max_left, lampLe_max_left]

theorem update_from_sanbai_some (s : Scores) (e : SanbaiScoreEntry)
    (he : e.difficulty ≤ 4) :
    ∃ s2, s.update_from_sanbai_score_entry e = some s2 ∧
      ∀ i, i ≤ 4 → slotLe ((s.index i).getD none) ((s2.index i).getD none) := by
  obtain ⟨sid, d, sc, lp⟩ := e
  simp only at he
  interval_cases d <;>
    refine ⟨_, rfl, ?_⟩ <;>
    intro i hi <;>
    interval_cases i <;>
    simp only [Scores.index, Option.getD_some] <;>
    first
      | exact slotLe_sanbaiCombine _ _
      | exact slotLe_refl _

/-- C2: merge monotonicity. At every valid difficulty index, both
`Scores::update` and `Scores::update_from_sanbai_score_entry` leave the slot
at least as large as before in the `slotLe` order: score and lamp never
decrease, and a filled slot never becomes empty. -/
theorem c2_merge_monotonic (s o : Scores) (e : SanbaiScoreEntry) (i : Nat)
    (hi : i ≤ 4) (he : e.difficulty ≤ 4) :
    ∃ s1 s2, s.update o = some s1 ∧ s.update_from_sanbai_score_entry e = some s2 ∧
      slotLe ((s.index i).getD none) ((s1.index i).getD none) ∧
      slotLe ((s.index i).getD none) ((s2.index i).getD none) := by
  obtain ⟨s2, hs2, hmono⟩ := update_from_sanbai_some s e he
  refine ⟨_, s2, s.update_eq o, hs2, ?_, hmono i hi⟩
  interval_cases i <;>
    simp only [Scores.index, Option.getD_some] <;>
    exact slotLe_combine_left _ _

theorem c2_merge_monotonic_witness :
    (2 : Nat) ≤ 4 ∧
    (SanbaiScoreEntry.difficulty ⟨"id", 2, 850000, .NoCombo⟩) ≤ 4 ∧
    (∃ s1 s2,
      Scores.update { diff_score := some ⟨900000, .Fail⟩ } scoresDefault = some s1 ∧
      Scores.update_from_sanbai_score_entry { diff_score := some ⟨900000, .Fail⟩ }
        ⟨"id", 2, 850000, .NoCombo⟩ = some s2 ∧
      slotLe ((Scores.index { diff_score := some ⟨900000, .Fail⟩ } 2).getD none)
        ((s1.index 2).getD none) ∧
      slotLe ((Scores.index { diff_score := some ⟨900000, .Fail⟩ } 2).getD none)
        ((s2.index 2).getD none)) :=
  ⟨by decide, by decide,
    c2_merge_monotonic { diff_score := some ⟨900000, .Fail⟩ } scoresDefault
      ⟨"id", 2, 850000, .NoCombo⟩ 2 (by decide) (by decide)⟩

/-- C10: index safety. Indexing a `Scores` succeeds for every index up to 4
and panics for every index from 5 on; `Scores::update` never panics; and
`Scores::update_from_sanbai_score_entry` panics exactly when the entry's
difficulty field is 5 or greater. -/
theorem c10_index_bounds (s o : Scores) (e : SanbaiScoreEntry) (i : Nat) :
    (i ≤ 4 → (s.index i).isSome) ∧
    (5 ≤ i → s.index i = none) ∧
    (s.update o).isSome ∧
    ((s.update_from_sanbai_score_entry e).isSome ↔ e.difficulty ≤ 4) := by
  refine ⟨?_, ?_, by rw [s.update_eq o]; rfl, ?_⟩
  · intro h; interval_cases i <;> simp [Scores.index]
  · intro h
    obtain ⟨j, rfl⟩ : ∃ j, i = j + 5 := ⟨i - 5, by omega⟩
    simp [Scores.index]
  · obtain ⟨sid, d, sc, lp⟩ := e
    simp only
    constructor
    · intro h
      by_contra hd
      obtain ⟨j, rfl⟩ : ∃ j, d = j + 5 := ⟨d - 5, by omega⟩
      simp [Scores.update_from_sanbai_score_entry, Scores.index] at h
    · intro hd
      interval_cases d <;>
        simp [Scores.update_from_sanbai_score_entry, Scores.index, Scores.setIdx]

theorem c10_index_bounds_witness :
    ((Scores.index scoresDefault 2).isSome) ∧
    (Scores.index scoresDefault 7 = none) ∧
    ((Scores.update scoresDefault scoresDefault).isSome) ∧
    ((Scores.update_from_sanbai_score_entry scoresDefault
        ⟨"id", 5, 1000000, .MarvelousCombo⟩).isSome ↔
      (SanbaiScoreEntry.difficulty ⟨"id", 5, 1000000, .MarvelousCombo⟩) ≤ 4) :=
  ⟨(c10_index_bounds scoresDefault scoresDefault ⟨"id", 5, 1000000, .MarvelousCombo⟩ 2).1
      (by decide),
    (c10_index_bounds scoresDefault scoresDefault
      ⟨"id", 5, 1000000, .MarvelousCombo⟩ 7).2.1 (by decide),
    (c10_index_bounds scoresDefault scoresDefault
      ⟨"id", 5, 1000000, .MarvelousCombo⟩ 0).2.2.1,
    (c10_index_bounds scoresDefault scoresDefault
      ⟨"id", 5, 1000000, .MarvelousCombo⟩ 0).2.2.2⟩

/-!
## Claims C7 (normalization) and C8 (lamp-code parsing)
-/

/-- C7 counterexample: the fold table of `normalize_name` does not fold
full-width letters, so the full-width title does not normalize to the claimed
all-ASCII form. -/
theorem c7_counterexample : normalize_name "Ａ…Ｂ" ≠ "A...B" := by decide

/-- C7 (amended): the two exclamation-mark spellings of the same title
normalize equal, and the ellipsis glyph expands to three literal periods, but
full-width letters stay full-width: the full-width title normalizes to itself
with the ellipsis expanded, not to the ASCII string. -/
theorem c7_normalization_fold :
    normalize_name "I！O" = normalize_name "I!O" ∧
    normalize_name "Ａ…Ｂ" = "Ａ...Ｂ" ∧
    normalize_name "Ａ…Ｂ" ≠ "A...B" := by decide

/-- C8: the Skill Attack side of lamp-code conversion is a hard parse error on
codes outside 0-3, and both conversion tables cover exactly their documented
ranges; but the Sanbai deserializer `num_to_sanbai_combo` panics (it hits
`todo!("Add unrecognized number error")`) on a code outside 0-6 instead of
returning the error result the spec requires. -/
theorem c8_lamp_code_parsing :
    num_to_sanbai_combo 7 = RustOutcome.panicked ∧
    num_to_sanbai_combo 255 = RustOutcome.panicked ∧
    skill_attack_combo_of_code 4 =
      Except.error (Error.skillAttackHtmlParseError "Unrecognized skill attack lamp type") ∧
    skill_attack_combo_of_code 255 =
      Except.error (Error.skillAttackHtmlParseError "Unrecognized skill attack lamp type") ∧
    (LampType.from_skill_attack_index 0).isSome ∧
    (LampType.from_skill_attack_index 3).isSome ∧
    LampType.from_skill_attack_index 4 = none ∧
    (LampType.from_sanbai_lamp_index 0).isSome ∧
    (LampType.from_sanbai_lamp_index 6).isSome ∧
    LampType.from_sanbai_lamp_index 7 = none ∧
    num_to_sanbai_combo 6 = RustOutcome.ok .MarvelousCombo ∧
    skill_attack_combo_of_code 3 = Except.ok .MarvelousCombo :=
  ⟨rfl, rfl, rfl, rfl, rfl, rfl, rfl, rfl, rfl, rfl, rfl, rfl⟩

/-!
## Claim C6: attribution drops unknown observations and touches nothing else
-/

theorem find?_filter_of_imp {α : Type} (l : List α) (p q : α → Bool)
    (h : ∀ x ∈ l, p x = true → q x = true) :
    (l.filter q).find? p = l.find? p := by
  induction l with
  | nil => rfl
  | cons x xs ih =>
    by_cases hq : q x = true
    · by_cases hp : p x = true
      · simp [List.filter_cons, hq, List.find?, hp]
      · simp only [List.filter_cons, hq, if_true, List.find?, hp]
        exact ih (fun y hy => h y (List.mem_cons_of_mem x hy))
    · have hp : p x = false := by
        by_contra hc
        exact hq (h x (List.mem_cons_self x xs) (by simpa using hc))
      simp only [List.filter_cons, hq, if_false, List.find?, hp]
      exact ih (fun y hy => h y (List.mem_cons_of_mem x hy))

theorem hashLookup_isSome {α : Type} (l : List (Nat × α)) (k : Nat) :
    (hashLookup l k).isSome ↔ ∃ p ∈ l, p.1 = k := by
  unfold hashLookup
  rcases h : l.reverse.find? (fun p => decide (p.1 = k)) with _ | p
  · rw [h]
    simp only [Option.map_none', Option.isSome_none, Bool.false_eq_true, false_iff]
    rintro ⟨p, hp, hpk⟩
    have := List.find?_eq_none.mp h p (List.mem_reverse.mpr hp)
    simp [hpk] at this
  · rw [h]
    simp only [Option.map_some', Option.isSome_some, true_iff]
    refine ⟨p, List.mem_reverse.mp (List.mem_of_find?_eq_some h), ?_⟩
    have := List.find?_some h
    simpa using this

theorem hashLookup_mem {α : Type} (l : List (Nat × α)) (k : Nat) (a : α)
    (h : hashLookup l k = some a) : a ∈ l.map Prod.snd := by
  unfold hashLookup at h
  obtain ⟨p, hp, rfl⟩ := Option.map_eq_some'.mp h
  have : p ∈ l.reverse := List.mem_of_find?_eq_some hp
  exact List.mem_map_of_mem Prod.snd (List.mem_reverse.mp this)

theorem hashLookup_filter {α : Type} (l : List (Nat × α)) (k : Nat)
    (q : Nat × α → Bool) (h : ∀ p ∈ l, p.1 = k → q p = true) :
    hashLookup (l.filter q) k = hashLookup l k := by
  unfold hashLookup
  rw [← List.filter_reverse]
  rw [find?_filter_of_imp]
  intro p hp hpk
  exact h p (List.mem_reverse.mp hp) (by simpa using hpk)

/-- Membership of a carried index in `song_list_index`. -/
theorem song_list_index_isSome (songs : List DDRSong) (s : DDRSong) (i : Nat)
    (hs : s ∈ songs) (hi : s.skill_attack_index = some i) :
    (hashLookup (song_list_index songs) i).isSome := by
  refine (hashLookup_isSome _ _).mpr ⟨(i, s.song_id), ?_, rfl⟩
  refine List.mem_filterMap.mpr ⟨s, hs, ?_⟩
  rw [hi]; rfl

/-- A Skill Attack observation whose index resolves nowhere in the catalog is
dropped by the matched-only filter without changing
`update_skill_attack_inner`'s fold. -/
theorem update_skill_attack_inner_fold_filter (songs : List DDRSong)
    (sa : List (Nat × Scores)) (m : SongMap) :
    (sa.filter (fun pr => (hashLookup (song_list_index songs) pr.1).isSome)).foldl
      (fun m pr =>
        match hashLookup (song_list_index songs) pr.1 with
        | none => m
        | some song_id =>
          match m song_id with
          | some inner_score => m.insert song_id (inner_score.updateT pr.2)
          | none => m.insert song_id pr.2)
      m =
    sa.foldl
      (fun m pr =>
        match hashLookup (song_list_index songs) pr.1 with
        | none => m
        | some song_id =>
          match m song_id with
          | some inner_score => m.insert song_id (inner_score.updateT pr.2)
          | none => m.insert song_id pr.2)
      m := by
  induction sa generalizing m with
  | nil => rfl
  | cons pr rest ih =>
    rcases h : hashLookup (song_list_index songs) pr.1 with _ | sid
    · simp only [List.filter_cons, h, Option.isSome_none, if_false, List.foldl_cons, h]
      exact ih m
    · simp only [List.filter_cons, h, Option.isSome_some, if_true, List.foldl_cons, h]
      exact ih _

theorem update_skill_attack_inner_fold_frame (songs : List DDRSong)
    (sa : List (Nat × Scores)) (m : SongMap) (k : String)
    (hk : k ∉ (song_list_index songs).map Prod.snd) :
    sa.foldl
      (fun m pr =>
        match hashLookup (song_list_index songs) pr.1 with
        | none => m
        | some song_id =>
          match m song_id with
          | some inner_score => m.insert song_id (inner_score.updateT pr.2)
          | none => m.insert song_id pr.2)
      m k = m k := by
  induction sa generalizing m with
  | nil => rfl
  | cons pr rest ih =>
    rcases h : hashLookup (song_list_index songs) pr.1 with _ | sid
    · simp only [List.foldl_cons, h]
      exact ih m
    · have hsid : sid ∈ (song_list_index songs).map Prod.snd := hashLookup_mem _ _ _ h
      have hne : k ≠ sid := fun he => hk (he ▸ hsid)
      simp only [List.foldl_cons, h]
      rcases m sid with _ | old <;>
        · rw [ih]
          simp [SongMap.insert, hne]

/-- One step of the `process_skill_attack_score` fold, peeled off. -/
theorem process_skill_attack_score_cons (m : SongMap) (sa : List (Nat × Scores))
    (s : DDRSong) (rest : List DDRSong) :
    process_skill_attack_score m sa (s :: rest) =
    process_skill_attack_score
      (match s.skill_attack_index with
       | none => m
       | some sa_index =>
         match hashLookup sa sa_index with
         | none => m
         | some new_score =>
           m.insert s.song_id (((m s.song_id).getD scoresDefault).updateT new_score))
      sa rest := rfl

theorem process_skill_attack_score_filter_aux (songsFull : List DDRSong)
    (sa : List (Nat × Scores)) (songs : List DDRSong) (m : SongMap)
    (hsub : ∀ s ∈ songs, s ∈ songsFull) :
    process_skill_attack_score m
      (sa.filter (fun pr => (hashLookup (song_list_index songsFull) pr.1).isSome))
      songs =
    process_skill_attack_score m sa songs := by
  induction songs generalizing m with
  | nil => rfl
  | cons s rest ih =>
    have hs : s ∈ songsFull := hsub s (List.mem_cons_self s rest)
    have hrest : ∀ x ∈ rest, x ∈ songsFull :=
      fun x hx => hsub x (List.mem_cons_of_mem s hx)
    rw [process_skill_attack_score_cons, process_skill_attack_score_cons]
    rcases hidx : s.skill_attack_index with _ | i
    · simp only [hidx]
      exact ih m hrest
    · have hlook :
          hashLookup
            (sa.filter (fun pr => (hashLookup (song_list_index songsFull) pr.1).isSome)) i =
          hashLookup sa i := by
        refine hashLookup_filter _ _ _ ?_
        intro p _ hp
        rw [hp]
        exact song_list_index_isSome songsFull s i hs hidx
      simp only [hidx, hlook]
      rcases hv : hashLookup sa i with _ | v
      · exact ih m hrest
      · exact ih _ hrest

theorem process_skill_attack_score_frame (sa : List (Nat × Scores))
    (songs : List DDRSong) (m : SongMap) (k : String)
    (hk : k ∉ (song_list_index songs).map Prod.snd) :
    process_skill_attack_score m sa songs k = m k := by
  have hgen : ∀ (sub : List DDRSong) (m : SongMap), (∀ s ∈ sub, s ∈ songs) →
      process_skill_attack_score m sa sub k = m k := by
    intro sub
    induction sub with
    | nil => intro m _; rfl
    | cons s rest ih =>
      intro m hsub
      have hs : s ∈ songs := hsub s (List.mem_cons_self s rest)
      have hrest : ∀ x ∈ rest, x ∈ songs :=
        fun x hx => hsub x (List.mem_cons_of_mem s hx)
      rw [process_skill_attack_score_cons]
      rcases hidx : s.skill_attack_index with _ | i
      · simp only [hidx]
        exact ih m hrest
      · rcases hv : hashLookup sa i with _ | v
        · simp only [hidx, hv]
          exact ih m hrest
        · have hsid : k ≠ s.song_id := by
            intro he
            refine hk ?_
            refine List.mem_map.mpr ⟨(i, s.song_id), ?_, by rw [← he]⟩
            refine List.mem_filterMap.mpr ⟨s, hs, ?_⟩
            rw [hidx]; rfl
          simp only [hidx, hv]
          rw [ih _ hrest]
          simp [SongMap.insert, hsid]
  exact hgen songs m (fun _ h => h)

/-- C6: attribution frame. Filtering a Skill Attack batch down to the
observations whose index matches a catalog song changes nothing — unmatched
observations are dropped without error and without effect — and neither
`process_skill_attack_score` nor `Player::update_skill_attack_inner` ever
writes to a key that is not the song id of a catalog song carrying a Skill
Attack index: both are total functions (no error path), and entries at all
other keys are untouched. -/
theorem c6_attribution_drop_unknown (m : SongMap) (songs : List DDRSong)
    (sa : List (Nat × Scores)) (k : String) (p : Player)
    (hk : k ∉ (song_list_index songs).map Prod.snd) :
    process_skill_attack_score m
      (sa.filter (fun pr => (hashLookup (song_list_index songs) pr.1).isSome)) songs =
      process_skill_attack_score m sa songs ∧
    process_skill_attack_score m sa songs k = m k ∧
    (p.update_skill_attack_inner songs
      (sa.filter (fun pr => (hashLookup (song_list_index songs) pr.1).isSome)) =
      p.update_skill_attack_inner songs sa) ∧
    (p.update_skill_attack_inner songs sa).scores k = p.scores k := by
  refine ⟨process_skill_attack_score_filter_aux songs sa songs m (fun _ h => h),
    process_skill_attack_score_frame sa songs m k hk, ?_, ?_⟩
  · unfold Player.update_skill_attack_inner
    rw [update_skill_attack_inner_fold_filter]
  · unfold Player.update_skill_attack_inner
    exact update_skill_attack_inner_fold_frame songs sa p.scores k hk

theorem c6_attribution_drop_unknown_witness :
    ("unknownSong" ∉ (song_list_index
        [{ song_id := "knownSong", skill_attack_index := some 12, song_name := "K",
           romanized_name := none, search_names := [], version_num := .UnknownVersion,
           deleted := false, ratings := ⟨[]⟩, lock_types := none }]).map Prod.snd) ∧
    process_skill_attack_score SongMap.empty [(99, scoresDefault)]
      [{ song_id := "knownSong", skill_attack_index := some 12, song_name := "K",
         romanized_name := none, search_names := [], version_num := .UnknownVersion,
         deleted := false, ratings := ⟨[]⟩, lock_types := none }] "unknownSong" =
      SongMap.empty "unknownSong" := by
  constructor
  · decide
  · exact (c6_attribution_drop_unknown SongMap.empty _ [(99, scoresDefault)] "unknownSong"
      ⟨"player", 0, none, SongMap.empty⟩ (by decide)).2.1

/-!
## Byte-order lemmas for `String::cmp` and correctness of the stable sort
-/

theorem listCharLt_irrefl (a : List Char) : listCharLt a a = false := by
  induction a with
  | nil => rfl
  | cons c cs ih => simp [listCharLt, ih]

theorem listCharLt_asymm : ∀ (a b : List Char),
    listCharLt a b = true → listCharLt b a = false
  | [], [], h => by simp [listCharLt] at h
  | [], _ :: _, _ => rfl
  | _ :: _, [], h => by simp [listCharLt] at h
  | a :: as, b :: bs, h => by
    simp only [listCharLt] at h ⊢
    by_cases h1 : a.toNat < b.toNat
    · rw [if_neg (by omega), if_pos h1]
    · rw [if_neg h1] at h
      by_cases h2 : b.toNat < a.toNat
      · rw [if_pos h2] at h
        exact absurd h (by simp)
      · rw [if_neg h2] at h
        rw [if_neg h2, if_neg h1]
        exact listCharLt_asymm as bs h

theorem listCharLt_eq_of_not_lt : ∀ (a b : List Char),
    listCharLt a b = false → listCharLt b a = false → a = b
  | [], [], _, _ => rfl
  | [], _ :: _, h, _ => by simp [listCharLt] at h
  | _ :: _, [], _, h' => by simp [listCharLt] at h'
  | a :: as, b :: bs, h, h' => by
    simp only [listCharLt] at h h'
    by_cases h1 : a.toNat < b.toNat
    · rw [if_pos h1] at h
      exact absurd h (by simp)
    · by_cases h2 : b.toNat < a.toNat
      · rw [if_pos h2] at h'
        exact absurd h' (by simp)
      · rw [if_neg h1, if_neg h2] at h
        rw [if_neg h2, if_neg h1] at h'
        have hc : a = b := by
          have hn : a.toNat = b.toNat := by omega
          have := congrArg Char.ofNat hn
          rwa [Char.ofNat_toNat, Char.ofNat_toNat] at this
        rw [hc, listCharLt_eq_of_not_lt as bs h h']

theorem listCharLt_trans : ∀ (a b c : List Char),
    listCharLt a b = true → listCharLt b c = true → listCharLt a c = true
  | [], b, c :: cs, _, _ => rfl
  | [], b, [], _, h' => by
    cases b <;> simp [listCharLt] at h'
  | _ :: _, [], _, h, _ => by simp [listCharLt] at h
  | _ :: _, _ :: _, [], _, h' => by simp [listCharLt] at h'
  | a :: as, b :: bs, c :: cs, h, h' => by
    simp only [listCharLt] at h h' ⊢
    by_cases hab : a.toNat < b.toNat
    · by_cases hbc : b.toNat < c.toNat
      · rw [if_pos (by omega)]
      · rw [if_neg hbc] at h'
        by_cases hcb : c.toNat < b.toNat
        · rw [if_pos hcb] at h'
          exact absurd h' (by simp)
        · rw [if_pos (by omega)]
    · rw [if_neg hab] at h
      by_cases hba : b.toNat < a.toNat
      · rw [if_pos hba] at h
        exact absurd h (by simp)
      · rw [if_neg hba] at h
        by_cases hbc : b.toNat < c.toNat
        · rw [if_pos (by omega)]
        · rw [if_neg hbc] at h'
          by_cases hcb : c.toNat < b.toNat
          · rw [if_pos hcb] at h'
            exact absurd h' (by simp)
          · rw [if_neg hcb] at h'
            rw [if_neg (by omega), if_neg (by omega)]
            exact listCharLt_trans as bs cs h h'

theorem nameLt_irrefl (a : String) : nameLt a a = false := listCharLt_irrefl a.data

theorem nameLt_asymm {a b : String} (h : nameLt a b = true) : nameLt b a = false :=
  listCharLt_asymm a.data b.data h

theorem nameLt_trans {a b c : String} (h : nameLt a b = true) (h' : nameLt b c = true) :
    nameLt a c = true :=
  listCharLt_trans a.data b.data c.data h h'

theorem eq_of_not_nameLt {a b : String} (h : nameLt a b = false)
    (h' : nameLt b a = false) : a = b :=
  String.ext (listCharLt_eq_of_not_lt a.data b.data h h')

theorem nameLt_ne {a b : String} (h : nameLt a b = true) : a ≠ b := by
  rintro rfl
  rw [nameLt_irrefl] at h
  exact Bool.false_ne_true h

theorem nameLe_total (a b : String) : nameLe a b = true ∨ nameLe b a = true := by
  unfold nameLe
  rcases h : nameLt b a with _ | _
  · left; simp
  · right; simp [nameLt_asymm h]

theorem nameLe_trans {a b c : String} (h : nameLe a b = true) (h' : nameLe b c = true) :
    nameLe a c = true := by
  unfold nameLe at h h' ⊢
  simp only [Bool.not_eq_true'] at h h' ⊢
  by_contra hca
  simp only [Bool.not_eq_false] at hca
  rcases hab : nameLt a b with _ | _
  · rcases hba : nameLt b a with _ | _
    · have : a = b := eq_of_not_nameLt hab hba
      subst this
      rw [hca] at h'
      exact Bool.false_ne_true h'.symm
    · rw [hba] at h
      exact Bool.false_ne_true h.symm
  · have : nameLt c b = true := nameLt_trans hca hab
    rw [this] at h'
    exact Bool.false_ne_true h'.symm

theorem nameLt_of_le_of_ne {a b : String} (h : nameLe a b = true) (hne : a ≠ b) :
    nameLt a b = true := by
  unfold nameLe at h
  simp only [Bool.not_eq_true'] at h
  rcases hab : nameLt a b with _ | _
  · exact absurd (eq_of_not_nameLt hab h) hne
  · rfl

theorem mem_orderedInsertBy {α : Type} (le : α → α → Bool) (a x : α) (l : List α) :
    x ∈ orderedInsertBy le a l ↔ x = a ∨ x ∈ l := by
  induction l with
  | nil => simp [orderedInsertBy]
  | cons b l ih =>
    simp only [orderedInsertBy]
    split
    · simp [List.mem_cons]
    · simp only [List.mem_cons, ih]
      tauto

theorem perm_orderedInsertBy {α : Type} (le : α → α → Bool) (a : α) (l : List α) :
    (orderedInsertBy le a l).Perm (a :: l) := by
  induction l with
  | nil => exact List.Perm.refl _
  | cons b l ih =>
    simp only [orderedInsertBy]
    split
    · exact List.Perm.refl _
    · exact (ih.cons b).trans (List.Perm.swap a b l)

theorem perm_insertionSortBy {α : Type} (le : α → α → Bool) (l : List α) :
    (insertionSortBy le l).Perm l := by
  induction l with
  | nil => exact List.Perm.refl _
  | cons a l ih => exact (perm_orderedInsertBy le a _).trans (ih.cons a)

theorem pairwise_orderedInsertBy {α : Type} (le : α → α → Bool)
    (htot : ∀ x y, le x y = true ∨ le y x = true)
    (htr : ∀ x y z, le x y = true → le y z = true → le x z = true)
    (a : α) (l : List α) (hl : l.Pairwise (fun x y => le x y = true)) :
    (orderedInsertBy le a l).Pairwise (fun x y => le x y = true) := by
  induction l with
  | nil => simp [orderedInsertBy]
  | cons b l ih =>
    obtain ⟨hb, hl'⟩ := List.pairwise_cons.mp hl
    simp only [orderedInsertBy]
    by_cases hab : le a b = true
    · rw [if_pos hab]
      refine List.pairwise_cons.mpr ⟨?_, hl⟩
      intro x hx
      rcases List.mem_cons.mp hx with rfl | hx
      · exact hab
      · exact htr a b x hab (hb x hx)
    · rw [if_neg hab]
      refine List.pairwise_cons.mpr ⟨?_, ih hl'⟩
      intro x hx
      rcases (mem_orderedInsertBy le a x l).mp hx with heq | hx
      · subst heq
        rcases htot x b with h | h
        · exact absurd h hab
        · exact h
      · exact hb x hx

theorem pairwise_insertionSortBy {α : Type} (le : α → α → Bool)
    (htot : ∀ x y, le x y = true ∨ le y x = true)
    (htr : ∀ x y z, le x y = true → le y z = true → le x z = true)
    (l : List α) :
    (insertionSortBy le l).Pairwise (fun x y => le x y = true) := by
  induction l with
  | nil => simp [insertionSortBy]
  | cons a l ih => exact pairwise_orderedInsertBy le htot htr a _ ih

theorem sortByNormalized_perm {α : Type} (l : List (String × α)) :
    (sortByNormalized l).Perm l :=
  perm_insertionSortBy _ l

theorem sortByNormalized_pairwise {α : Type} (l : List (String × α)) :
    (sortByNormalized l).Pairwise (fun a b => nameLe a.1 b.1 = true) :=
  pairwise_insertionSortBy _ (fun x y => nameLe_total x.1 y.1)
    (fun x y z (h : nameLe x.1 y.1 = true) (h' : nameLe y.1 z.1 = true) =>
      nameLe_trans h h') l

theorem sortByNormalized_pairwise_lt {α : Type} (l : List (String × α))
    (h : (l.map Prod.fst).Nodup) :
    (sortByNormalized l).Pairwise (fun a b => nameLt a.1 b.1 = true) := by
  have hperm := sortByNormalized_perm l
  have hnd : ((sortByNormalized l).map Prod.fst).Nodup :=
    ((hperm.map Prod.fst).nodup_iff).mpr h
  have hne : (sortByNormalized l).Pairwise (fun a b => a.1 ≠ b.1) :=
    List.pairwise_map.mp hnd
  exact ((sortByNormalized_pairwise l).and hne).imp
    (fun hab => nameLt_of_le_of_ne hab.1 hab.2)

/-!
## The merge join: claims C3 and C9
-/

theorem new_from_song_name (sb : SanbaiSong) (x : Option SkillAttackSong) :
    (DDRSong.new_from_sanbai_and_skillattack sb x).song_name = sb.song_name := rfl

theorem find?_pair_cons_of_ne {α : Type} (q : String × α) (l : List (String × α))
    (n : String) (h : ¬q.1 = n) :
    ((q :: l).find? (fun r => decide (r.1 = n))) = l.find? (fun r => decide (r.1 = n)) :=
  List.find?_cons_of_neg _ (by simp [h])

theorem find?_eq_of_perm_unique {α : Type} {l l' : List α} (hp : l.Perm l')
    (p : α → Bool)
    (huniq : ∀ x ∈ l, ∀ y ∈ l, p x = true → p y = true → x = y) :
    l.find? p = l'.find? p := by
  rcases h : l.find? p with _ | x
  · rcases h' : l'.find? p with _ | y
    · rfl
    · have hy := List.mem_of_find?_eq_some h'
      have hpy := List.find?_some h'
      exact absurd hpy (List.find?_eq_none.mp h y (hp.mem_iff.mpr hy))
  · have hx := List.mem_of_find?_eq_some h
    have hpx := List.find?_some h
    rcases h' : l'.find? p with _ | y
    · exact absurd hpx (List.find?_eq_none.mp h' x (hp.mem_iff.mp hx))
    · have hy := hp.mem_iff.mpr (List.mem_of_find?_eq_some h')
      have hpy := List.find?_some h'
      rw [huniq x hx y hy hpx hpy]

/-- On strictly-sorted inputs, the merge loop emits exactly one song per
Sanbai pair, in order, matched against the unique Skill Attack pair of equal
normalized name when it exists. -/
theorem combineLoop_eq_map :
    ∀ (sas : List (String × SkillAttackSong)) (sbs : List (String × SanbaiSong)),
    sas.Pairwise (fun a b => nameLt a.1 b.1 = true) →
    sbs.Pairwise (fun a b => nameLt a.1 b.1 = true) →
    combineLoop sas sbs =
      sbs.map (fun p => DDRSong.new_from_sanbai_and_skillattack p.2
        ((sas.find? (fun q => decide (q.1 = p.1))).map Prod.snd)) := by
  intro sas sbs hsa hsb
  induction sas, sbs using combineLoop.induct with
  | case1 => simp [combineLoop]
  | case2 nb sb rest ih =>
    simp only [combineLoop, List.map_cons, List.find?_nil, Option.map_none']
    exact congrArg _ (ih List.Pairwise.nil (List.pairwise_cons.mp hsb).2)
  | case3 q sas => simp [combineLoop]
  | case4 na sa sas nb sb sbs hlt ih =>
    simp only [combineLoop, hlt, if_pos]
    rw [ih (List.pairwise_cons.mp hsa).2 hsb]
    refine (List.map_congr_left ?_).symm
    intro p hp
    have hne : ¬na = p.1 := by
      rcases List.mem_cons.mp hp with heq | hp'
      · rw [heq]
        exact nameLt_ne hlt
      · have hlt2 : nameLt nb p.1 = true := (List.pairwise_cons.mp hsb).1 p hp'
        exact nameLt_ne (nameLt_trans hlt hlt2)
    rw [find?_pair_cons_of_ne (na, sa) sas p.1 hne]
  | case5 na sa sas nb sb sbs hnlt hlt ih =>
    simp only [combineLoop, hnlt, hlt, if_neg, if_pos, Bool.not_eq_true]
    have hfind : ((na, sa) :: sas).find? (fun q => decide (q.1 = nb)) = none := by
      refine List.find?_eq_none.mpr ?_
      intro q hq
      simp only [decide_eq_true_eq]
      rcases List.mem_cons.mp hq with heq | hq'
      · rw [heq]
        intro hcontra
        simp only at hcontra
        rw [hcontra] at hlt
        rw [nameLt_irrefl] at hlt
        exact Bool.false_ne_true hlt
      · have : nameLt na q.1 = true := (List.pairwise_cons.mp hsa).1 q hq'
        exact (nameLt_ne (nameLt_trans hlt this)).symm
    rw [List.map_cons, hfind]
    simp only [Option.map_none']
    exact congrArg _ (ih hsa (List.pairwise_cons.mp hsb).2)
  | case6 na sa sas nb sb sbs hnlt hnlt' ih =>
    have heq : na = nb :=
      eq_of_not_nameLt (Bool.not_eq_true _ ▸ hnlt) (Bool.not_eq_true _ ▸ hnlt')
    simp only [combineLoop, hnlt, hnlt', if_neg, Bool.not_eq_true]
    have hfind : ((na, sa) :: sas).find? (fun q => decide (q.1 = nb)) = some (na, sa) :=
      List.find?_cons_of_pos _ (by simp [heq])
    rw [List.map_cons, hfind]
    simp only [Option.map_some']
    refine congrArg _ ?_
    rw [ih (List.pairwise_cons.mp hsa).2 (List.pairwise_cons.mp hsb).2]
    refine (List.map_congr_left ?_).symm
    intro p hp
    have hlt2 : nameLt nb p.1 = true := (List.pairwise_cons.mp hsb).1 p hp
    have hne : ¬na = p.1 := heq ▸ nameLt_ne hlt2
    rw [find?_pair_cons_of_ne (na, sa) sas p.1 hne]

/-- The merge loop emits the Sanbai-side display names, in the Sanbai-side
order, unconditionally. -/
theorem combineLoop_map_song_name :
    ∀ (sas : List (String × SkillAttackSong)) (sbs : List (String × SanbaiSong)),
    (combineLoop sas sbs).map (fun d => d.song_name) =
      sbs.map (fun p => p.2.song_name) := by
  intro sas sbs
  induction sas, sbs using combineLoop.induct with
  | case1 => simp [combineLoop]
  | case2 nb sb rest ih =>
    simp only [combineLoop, List.map_cons, new_from_song_name]
    exact congrArg _ ih
  | case3 q sas => simp [combineLoop]
  | case4 na sa sas nb sb sbs hlt ih =>
    simp only [combineLoop, hlt, if_pos]
    exact ih
  | case5 na sa sas nb sb sbs hnlt hlt ih =>
    simp only [combineLoop, hnlt, hlt, if_neg, if_pos, Bool.not_eq_true, List.map_cons,
      new_from_song_name]
    exact congrArg _ ih
  | case6 na sa sas nb sb sbs hnlt hnlt' ih =>
    simp only [combineLoop, hnlt, hnlt', if_neg, Bool.not_eq_true, List.map_cons,
      new_from_song_name]
    exact congrArg _ ih

/-- C3: reconciliation join correctness. On catalogs whose normalized titles
are unique within each list, the combined list is exactly one song per Sanbai
record (a permutation of the Sanbai list, made explicit by the sorted copy),
each matched against the unique Skill Attack record of equal normalized title
when one exists and against nothing otherwise; Skill-Attack-only records
contribute no output. -/
theorem c3_reconciliation (sanbai : List SanbaiSong) (sa : List SkillAttackSong)
    (h1 : (sanbai.map (fun s => normalize_name s.song_name)).Nodup)
    (h2 : (sa.map (fun s => normalize_name s.song_name)).Nodup) :
    ∃ sorted_sanbai : List SanbaiSong,
      sorted_sanbai.Perm sanbai ∧
      DDRSong.from_combining_song_lists sanbai sa =
        sorted_sanbai.map (fun sb => DDRSong.new_from_sanbai_and_skillattack sb
          (sa.find? (fun s =>
            decide (normalize_name s.song_name = normalize_name sb.song_name)))) ∧
      (DDRSong.from_combining_song_lists sanbai sa).length = sanbai.length ∧
      ∀ d ∈ DDRSong.from_combining_song_lists sanbai sa,
        ∃ sb ∈ sanbai, d = DDRSong.new_from_sanbai_and_skillattack sb
          (sa.find? (fun s =>
            decide (normalize_name s.song_name = normalize_name sb.song_name))) := by
  have h1' : ((sanbai.map (fun s => (normalize_name s.song_name, s))).map Prod.fst).Nodup := by
    rw [List.map_map]; exact h1
  have h2' : ((sa.map (fun s => (normalize_name s.song_name, s))).map Prod.fst).Nodup := by
    rw [List.map_map]; exact h2
  have hsblt := sortByNormalized_pairwise_lt (sanbai.map (fun s => (normalize_name s.song_name, s))) h1'
  have hsalt := sortByNormalized_pairwise_lt (sa.map (fun s => (normalize_name s.song_name, s))) h2'
  have hmain := combineLoop_eq_map _ _ hsalt hsblt
  have hwfSb : ∀ p ∈ sortByNormalized (sanbai.map (fun s => (normalize_name s.song_name, s))),
      p.1 = normalize_name p.2.song_name := by
    intro p hp
    have hp' : p ∈ sanbai.map (fun s => (normalize_name s.song_name, s)) :=
      (sortByNormalized_perm _).mem_iff.mp hp
    obtain ⟨s, _, rfl⟩ := List.mem_map.mp hp'
    rfl
  have hfind : ∀ n : String,
      ((sortByNormalized (sa.map (fun s => (normalize_name s.song_name, s)))).find?
        (fun q => decide (q.1 = n))).map Prod.snd =
      sa.find? (fun s => decide (normalize_name s.song_name = n)) := by
    intro n
    have huniq : ∀ x ∈ sortByNormalized (sa.map (fun s => (normalize_name s.song_name, s))),
        ∀ y ∈ sortByNormalized (sa.map (fun s => (normalize_name s.song_name, s))),
        decide (x.1 = n) = true → decide (y.1 = n) = true → x = y := by
      intro x hx y hy hpx hpy
      simp only [decide_eq_true_eq] at hpx hpy
      exact List.inj_on_of_nodup_map h2'
        ((sortByNormalized_perm _).mem_iff.mp hx)
        ((sortByNormalized_perm _).mem_iff.mp hy)
        (hpx.trans hpy.symm)
    rw [find?_eq_of_perm_unique (sortByNormalized_perm _) _ huniq]
    rw [List.find?_map]
    rw [Option.map_map]
    have hfun : ((fun q : String × SkillAttackSong => decide (q.1 = n)) ∘
        (fun s => (normalize_name s.song_name, s))) =
        fun s => decide (normalize_name s.song_name = n) := rfl
    rw [hfun]
    have hsnd : (Prod.snd ∘ fun s : SkillAttackSong => (normalize_name s.song_name, s)) =
        fun s => s := rfl
    rw [hsnd, Option.map_id']
  have hperm : ((sortByNormalized (sanbai.map (fun s => (normalize_name s.song_name, s)))).map
      Prod.snd).Perm sanbai := by
    have h := (sortByNormalized_perm (sanbai.map (fun s => (normalize_name s.song_name, s)))).map
      Prod.snd
    have heq : (sanbai.map (fun s => (normalize_name s.song_name, s))).map Prod.snd = sanbai := by
      rw [List.map_map]
      exact List.map_id sanbai
    rwa [heq] at h
  have heqmain : DDRSong.from_combining_song_lists sanbai sa =
      ((sortByNormalized (sanbai.map (fun s => (normalize_name s.song_name, s)))).map
        Prod.snd).map (fun sb => DDRSong.new_from_sanbai_and_skillattack sb
          (sa.find? (fun s =>
            decide (normalize_name s.song_name = normalize_name sb.song_name)))) := by
    rw [show DDRSong.from_combining_song_lists sanbai sa =
      combineLoop (sortByNormalized (sa.map (fun s => (normalize_name s.song_name, s))))
        (sortByNormalized (sanbai.map (fun s => (normalize_name s.song_name, s)))) from rfl]
    rw [hmain, List.map_map]
    refine List.map_congr_left ?_
    intro p hp
    simp only [Function.comp]
    rw [hfind p.1, hwfSb p hp]
  refine ⟨_, hperm, heqmain, ?_, ?_⟩
  · rw [heqmain, List.length_map]
    exact hperm.length_eq
  · intro d hd
    rw [heqmain] at hd
    obtain ⟨sb, hsb, rfl⟩ := List.mem_map.mp hd
    exact ⟨sb, hperm.subset hsb, rfl⟩

theorem c3_reconciliation_witness :
    ((([{ song_id := "idB", song_name := "Bar" },
        { song_id := "idA", song_name := "Foo" }] : List SanbaiSong).map
        (fun s => normalize_name s.song_name)).Nodup) ∧
    ((([⟨7, "F oo"⟩] : List SkillAttackSong).map
        (fun s => normalize_name s.song_name)).Nodup) ∧
    (∃ sorted_sanbai : List SanbaiSong,
      sorted_sanbai.Perm [{ song_id := "idB", song_name := "Bar" },
        { song_id := "idA", song_name := "Foo" }] ∧
      DDRSong.from_combining_song_lists
          [{ song_id := "idB", song_name := "Bar" },
            { song_id := "idA", song_name := "Foo" }] [⟨7, "F oo"⟩] =
        sorted_sanbai.map (fun sb => DDRSong.new_from_sanbai_and_skillattack sb
          ([⟨7, "F oo"⟩].find? (fun s =>
            decide (normalize_name s.song_name = normalize_name sb.song_name)))) ∧
      (DDRSong.from_combining_song_lists
          [{ song_id := "idB", song_name := "Bar" },
            { song_id := "idA", song_name := "Foo" }] [⟨7, "F oo"⟩]).length =
        ([{ song_id := "idB", song_name := "Bar" },
          { song_id := "idA", song_name := "Foo" }] : List SanbaiSong).length ∧
      ∀ d ∈ DDRSong.from_combining_song_lists
          [{ song_id := "idB", song_name := "Bar" },
            { song_id := "idA", song_name := "Foo" }] [⟨7, "F oo"⟩],
        ∃ sb ∈ ([{ song_id := "idB", song_name := "Bar" },
            { song_id := "idA", song_name := "Foo" }] : List SanbaiSong),
          d = DDRSong.new_from_sanbai_and_skillattack sb
            ([⟨7, "F oo"⟩].find? (fun s =>
              decide (normalize_name s.song_name = normalize_name sb.song_name)))) :=
  ⟨by decide, by decide, c3_reconciliation _ _ (by decide) (by decide)⟩

/-- C9 (amended): the rebuilt catalog is ordered by the songs' normalized
names (in `String::cmp` byte order), not by their raw display names. -/
theorem c9_catalog_normalized_order (sanbai : List SanbaiSong)
    (sa : List SkillAttackSong) :
    ((DDRSong.from_combining_song_lists sanbai sa).map
      (fun d => normalize_name d.song_name)).Pairwise (fun a b => nameLe a b = true) := by
  rw [show DDRSong.from_combining_song_lists sanbai sa =
    combineLoop (sortByNormalized (sa.map (fun s => (normalize_name s.song_name, s))))
      (sortByNormalized (sanbai.map (fun s => (normalize_name s.song_name, s)))) from rfl]
  have hsplit : ∀ l : List DDRSong,
      l.map (fun d => normalize_name d.song_name) =
      (l.map (fun d => d.song_name)).map normalize_name := by
    intro l; rw [List.map_map]; rfl
  rw [hsplit, combineLoop_map_song_name, List.map_map]
  have hwf : ∀ p ∈ sortByNormalized (sanbai.map (fun s => (normalize_name s.song_name, s))),
      (normalize_name ∘ fun p : String × SanbaiSong => p.2.song_name) p = p.1 := by
    intro p hp
    have hp' : p ∈ sanbai.map (fun s => (normalize_name s.song_name, s)) :=
      (sortByNormalized_perm _).mem_iff.mp hp
    obtain ⟨s, _, rfl⟩ := List.mem_map.mp hp'
    rfl
  rw [List.map_congr_left hwf]
  exact List.pairwise_map.mpr (sortByNormalized_pairwise _)

/-- C9 counterexample: a successful run whose catalog display names are not in
sorted order (their normalized names are: normalization deletes the space of
`"A C"`, which reverses the byte order against `"AB"`). -/
theorem c9_counterexample :
    (match update_scores
        (Except.ok [{ song_id := "id1", song_name := "A C" },
          { song_id := "id2", song_name := "AB" }])
        [RunEvent.saSongList (Except.ok [])] [] [] with
      | RunResult.ok st => st.songs.map (fun d => d.song_name)
      | RunResult.err _ => []
      | RunResult.panicked => []) = ["AB", "A C"] ∧
    ¬ List.Pairwise (fun a b => nameLe a b = true) ["AB", "A C"] := by
  constructor
  · show (DDRSong.from_combining_song_lists
        [{ song_id := "id1", song_name := "A C" }, { song_id := "id2", song_name := "AB" }]
        []).map (fun d => d.song_name) = ["AB", "A C"]
    rw [show DDRSong.from_combining_song_lists
        [{ song_id := "id1", song_name := "A C" }, { song_id := "id2", song_name := "AB" }]
        [] =
      combineLoop
        (sortByNormalized (([] : List SkillAttackSong).map
          (fun s => (normalize_name s.song_name, s))))
        (sortByNormalized
          (([{ song_id := "id1", song_name := "A C" },
            { song_id := "id2", song_name := "AB" }] : List SanbaiSong).map
            (fun s => (normalize_name s.song_name, s)))) from rfl]
    rw [combineLoop_map_song_name]
    rfl
  · intro h
    have h1 := (List.pairwise_cons.mp h).1 "A C" (List.mem_cons_self _ _)
    exact absurd h1 (by decide)

/-!
## Orchestrator claims C4 (degradation) and C5 (per-player failure)
-/

theorem applySanbaiEntries_isSome (m : SongMap) (entries : List SanbaiScoreEntry)
    (h : ∀ e ∈ entries, e.difficulty ≤ 4) :
    ∃ m', applySanbaiEntries m entries = some m' := by
  induction entries generalizing m with
  | nil => exact ⟨m, rfl⟩
  | cons e rest ih =>
    obtain ⟨s2, hs2, _⟩ := update_from_sanbai_some ((m e.song_id).getD scoresDefault) e
      (h e (List.mem_cons_self e rest))
    simp only [applySanbaiEntries, hs2, Option.some_bind]
    exact ih _ (fun x hx => h x (List.mem_cons_of_mem e hx))

/-- While the Skill Attack catalog has not been merged, every Skill Attack
score result is left unpolled: removing them from the dequeue order does not
change the run at all, provided the catalog fetch never succeeds. -/
theorem runEvents_discards_sa_scores (sbs : List SanbaiSong) :
    ∀ (events : List RunEvent) (st : DBState),
    st.sa_songs_updated = false →
    saSongEventsFail events →
    runEvents sbs events st =
      runEvents sbs (events.filter (fun ev => !ev.isSaScores)) st := by
  intro events
  induction events with
  | nil => intro st _ _; rfl
  | cons ev rest ih =>
    intro st hsu hfail
    have hfail' : saSongEventsFail rest :=
      fun res h => hfail res (List.mem_cons_of_mem ev h)
    match ev with
    | RunEvent.saSongList res =>
      obtain ⟨e, rfl⟩ := hfail res (List.mem_cons_self _ _)
      simp only [List.filter_cons, RunEvent.isSaScores, Bool.not_false, if_true]
      simp only [runEvents]
      by_cases hg : (!st.sa_songs_updated && !st.skip_skill_attack) = true
      · rw [if_pos hg, if_pos hg]
        exact ih _ hsu hfail'
      · rw [if_neg hg, if_neg hg]
        exact ih _ hsu hfail'
    | RunEvent.sanbaiScores i res =>
      match res with
      | Except.error e => rfl
      | Except.ok entries =>
        simp only [List.filter_cons, RunEvent.isSaScores, Bool.not_false, if_true]
        simp only [runEvents]
        by_cases hi : i < st.players.length
        · rw [dif_pos hi, dif_pos hi]
          rcases hm : applySanbaiEntries (st.players.get ⟨i, hi⟩).scores entries with _ | m
          · rfl
          · exact ih _ (by simpa using hsu) hfail'
        · rw [dif_neg hi, dif_neg hi]
    | RunEvent.saScores i res =>
      simp only [List.filter_cons, RunEvent.isSaScores, Bool.not_true, if_false]
      simp only [runEvents]
      have hg : (st.sa_songs_updated && !st.skip_skill_attack) = false := by
        rw [hsu]; rfl
      rw [if_neg (by simp [hg])]
      exact ih _ hsu hfail'

theorem new_from_none_skill_attack_index (s : SanbaiSong) :
    (DDRSong.new_from_sanbai_and_skillattack s none).skill_attack_index = none := rfl

/-- The drain loop on a run with no Skill Attack score results, an
always-failing Skill Attack catalog, and panic-free Sanbai results: it
completes normally, never merges a Skill Attack catalog, and once the
degraded catalog is installed every song stays unlinked. -/
theorem runEvents_degraded (sbs : List SanbaiSong) :
    ∀ (events : List RunEvent) (st : DBState) (n : Nat),
    st.players.length = n →
    st.sa_songs_updated = false →
    (st.skip_skill_attack = true → ∀ d ∈ st.songs, d.skill_attack_index = none) →
    saSongEventsFail events →
    sanbaiEventsOk events n →
    (∀ ev ∈ events, ev.isSaScores = false) →
    ∃ st', runEvents sbs events st = RunResult.ok st' ∧
      st'.sa_songs_updated = false ∧
      (st'.skip_skill_attack = true → ∀ d ∈ st'.songs, d.skill_attack_index = none) ∧
      ((st.skip_skill_attack = true ∨ ∃ e, RunEvent.saSongList (Except.error e) ∈ events) →
        st'.skip_skill_attack = true) := by
  intro events
  induction events with
  | nil =>
    intro st n _ hsu hP _ _ _
    refine ⟨st, rfl, hsu, hP, ?_⟩
    rintro (h | ⟨e, hmem⟩)
    · exact h
    · exact absurd hmem (List.not_mem_nil _)
  | cons ev rest ih =>
    intro st n hlen hsu hP hfail hok hnosa
    have hfail' : saSongEventsFail rest :=
      fun res h => hfail res (List.mem_cons_of_mem ev h)
    have hnosa' : ∀ e ∈ rest, e.isSaScores = false :=
      fun e h => hnosa e (List.mem_cons_of_mem ev h)
    have hok' : sanbaiEventsOk rest n :=
      fun i res h => hok i res (List.mem_cons_of_mem _ h)
    match ev with
    | RunEvent.saSongList res =>
      obtain ⟨e, rfl⟩ := hfail res (List.mem_cons_self _ _)
      simp only [runEvents]
      by_cases hg : (!st.sa_songs_updated && !st.skip_skill_attack) = true
      · rw [if_pos hg]
        obtain ⟨st', h1, h2, h3, h4⟩ := ih
          { songs := sbs.map (fun song => DDRSong.new_from_sanbai_and_skillattack song none)
            players := st.players
            sa_songs_updated := st.sa_songs_updated
            skip_skill_attack := true }
          n hlen hsu
          (fun _ d hd => by
            obtain ⟨s, _, rfl⟩ := List.mem_map.mp hd
            exact new_from_none_skill_attack_index s)
          hfail' hok' hnosa'
        exact ⟨st', h1, h2, h3, fun _ => h4 (Or.inl rfl)⟩
      · rw [if_neg hg]
        have hskip : st.skip_skill_attack = true := by
          rw [hsu] at hg
          simpa using hg
        obtain ⟨st', h1, h2, h3, h4⟩ := ih st n hlen hsu hP hfail' hok' hnosa'
        exact ⟨st', h1, h2, h3, fun _ => h4 (Or.inl hskip)⟩
    | RunEvent.sanbaiScores i res =>
      obtain ⟨entries, rfl, hi, hdiff⟩ := hok i res (List.mem_cons_self _ _)
      rw [← hlen] at hi
      simp only [runEvents]
      rw [dif_pos hi]
      obtain ⟨m, hm⟩ := applySanbaiEntries_isSome (st.players.get ⟨i, hi⟩).scores entries hdiff
      rw [hm]
      obtain ⟨st', h1, h2, h3, h4⟩ := ih
        { songs := st.songs
          players := st.players.set i { st.players.get ⟨i, hi⟩ with scores := m }
          sa_songs_updated := st.sa_songs_updated
          skip_skill_attack := st.skip_skill_attack }
        n (by simpa using hlen) hsu hP hfail' hok' hnosa'
      refine ⟨st', h1, h2, h3, ?_⟩
      rintro (h | ⟨e, hmem⟩)
      · exact h4 (Or.inl h)
      · rcases List.mem_cons.mp hmem with heq | hmem'
        · exact absurd heq (by simp)
        · exact h4 (Or.inr ⟨e, hmem'⟩)
    | RunEvent.saScores i res =>
      exact absurd (hnosa _ (List.mem_cons_self _ _)) (by simp [RunEvent.isSaScores])

/-- C4: degradation. If the Skill Attack catalog fetch fails, the run is
unchanged by deleting every Skill Attack score result from the dequeue order
(they are all discarded unapplied), and — when the Sanbai side is healthy —
`update_scores` still returns `Ok` with a catalog built from the Sanbai list
alone, in which no song carries a `skill_attack_index`. -/
theorem c4_degraded_run (sanbai_songs : List SanbaiSong) (events : List RunEvent)
    (songs : List DDRSong) (players : List Player)
    (hfail : saSongEventsFail events)
    (hok : sanbaiEventsOk events players.length)
    (hmem : ∃ e, RunEvent.saSongList (Except.error e) ∈ events) :
    update_scores (Except.ok sanbai_songs) events songs players =
      update_scores (Except.ok sanbai_songs)
        (events.filter (fun ev => !ev.isSaScores)) songs players ∧
    ∃ st', update_scores (Except.ok sanbai_songs) events songs players =
        RunResult.ok st' ∧
      ∀ d ∈ st'.songs, d.skill_attack_index = none := by
  have hdiscard := runEvents_discards_sa_scores sanbai_songs events
    { songs := songs, players := players, sa_songs_updated := false,
      skip_skill_attack := false } rfl hfail
  constructor
  · exact hdiscard
  · have hfailF : saSongEventsFail (events.filter (fun ev => !ev.isSaScores)) :=
      fun res h => hfail res (List.mem_of_mem_filter h)
    have hokF : sanbaiEventsOk (events.filter (fun ev => !ev.isSaScores)) players.length :=
      fun i res h => hok i res (List.mem_of_mem_filter h)
    have hnosaF : ∀ ev ∈ events.filter (fun ev => !ev.isSaScores), ev.isSaScores = false := by
      intro ev h
      have := List.of_mem_filter h
      simpa using this
    have hmemF : ∃ e, RunEvent.saSongList (Except.error e) ∈
        events.filter (fun ev => !ev.isSaScores) := by
      obtain ⟨e, h⟩ := hmem
      exact ⟨e, List.mem_filter.mpr ⟨h, by simp [RunEvent.isSaScores]⟩⟩
    obtain ⟨st', h1, _, h3, h4⟩ := runEvents_degraded sanbai_songs
      (events.filter (fun ev => !ev.isSaScores))
      { songs := songs, players := players, sa_songs_updated := false,
        skip_skill_attack := false } players.length rfl rfl
      (by intro h; exact absurd h (by simp))
      hfailF hokF hnosaF
    refine ⟨st', ?_, h3 (h4 (Or.inr hmemF))⟩
    show runEvents sanbai_songs events
      { songs := songs, players := players, sa_songs_updated := false,
        skip_skill_attack := false } = RunResult.ok st'
    rw [hdiscard]
    exact h1

/-- A Sanbai per-player fetch error in the dequeue order forces the whole run
to return an error, in every completion order, as long as nothing panics
first. -/
theorem runEvents_err_of_sanbai_err (sbs : List SanbaiSong) :
    ∀ (events : List RunEvent) (st : DBState) (n : Nat) (i : Nat) (e : Error),
    st.players.length = n →
    RunEvent.sanbaiScores i (Except.error e) ∈ events →
    (∀ ev ∈ events, eventNoPanic n ev) →
    ∃ e', runEvents sbs events st = RunResult.err e' := by
  intro events
  induction events with
  | nil =>
    intro st n i e _ h _
    exact absurd h (List.not_mem_nil _)
  | cons ev rest ih =>
    intro st n i e hlen hmem hnp
    have hnp' : ∀ x ∈ rest, eventNoPanic n x :=
      fun x h => hnp x (List.mem_cons_of_mem ev h)
    match ev with
    | RunEvent.saSongList res =>
      have hmem' : RunEvent.sanbaiScores i (Except.error e) ∈ rest := by
        rcases List.mem_cons.mp hmem with heq | h
        · exact absurd heq (by simp)
        · exact h
      match res with
      | Except.error e0 =>
        simp only [runEvents]
        by_cases hg : (!st.sa_songs_updated && !st.skip_skill_attack) = true
        · rw [if_pos hg]
          exact ih _ n i e hlen hmem' hnp'
        · rw [if_neg hg]
          exact ih _ n i e hlen hmem' hnp'
      | Except.ok sa_songs =>
        simp only [runEvents]
        by_cases hg : (!st.sa_songs_updated && !st.skip_skill_attack) = true
        · rw [if_pos hg]
          exact ih _ n i e hlen hmem' hnp'
        · rw [if_neg hg]
          exact ih _ n i e hlen hmem' hnp'
    | RunEvent.sanbaiScores j res =>
      match res with
      | Except.error e2 => exact ⟨e2, rfl⟩
      | Except.ok entries =>
        have hmem' : RunEvent.sanbaiScores i (Except.error e) ∈ rest := by
          rcases List.mem_cons.mp hmem with heq | h
          · exact absurd heq (by simp)
          · exact h
        obtain ⟨hj, hdiff⟩ := hnp _ (List.mem_cons_self _ _)
        rw [← hlen] at hj
        simp only [runEvents]
        rw [dif_pos hj]
        obtain ⟨m, hm⟩ := applySanbaiEntries_isSome (st.players.get ⟨j, hj⟩).scores entries hdiff
        rw [hm]
        exact ih _ n i e (by simpa using hlen) hmem' hnp'
    | RunEvent.saScores j res =>
      have hmem' : RunEvent.sanbaiScores i (Except.error e) ∈ rest := by
        rcases List.mem_cons.mp hmem with heq | h
        · exact absurd heq (by simp)
        · exact h
      match res with
      | Except.error e2 =>
        simp only [runEvents]
        by_cases hg : (st.sa_songs_updated && !st.skip_skill_attack) = true
        · rw [if_pos hg]
          exact ⟨e2, rfl⟩
        · rw [if_neg hg]
          exact ih _ n i e hlen hmem' hnp'
      | Except.ok sa_scores =>
        simp only [runEvents]
        by_cases hg : (st.sa_songs_updated && !st.skip_skill_attack) = true
        · rw [if_pos hg]
          have hj : j < n := hnp _ (List.mem_cons_self _ _)
          rw [← hlen] at hj
          rw [dif_pos hj]
          exact ih _ n i e (by simpa using hlen) hmem' hnp'
        · rw [if_neg hg]
          exact ih _ n i e hlen hmem' hnp'

/-- C5 (amended): a per-player Sanbai score fetch failure is propagated by
`?`: `update_scores` returns `Err` for the whole run (there is no
failed-player list), in every completion order in which nothing panics. -/
theorem c5_per_player_failure (sanbai_songs : List SanbaiSong) (events : List RunEvent)
    (songs : List DDRSong) (players : List Player) (i : Nat) (e : Error)
    (hmem : RunEvent.sanbaiScores i (Except.error e) ∈ events)
    (hnp : ∀ ev ∈ events, eventNoPanic players.length ev) :
    ∃ e', update_scores (Except.ok sanbai_songs) events songs players =
      RunResult.err e' :=
  runEvents_err_of_sanbai_err sanbai_songs events
    { songs := songs, players := players, sa_songs_updated := false,
      skip_skill_attack := false } players.length i e rfl hmem hnp

/-- C5 counterexample: one player whose Sanbai score fetch fails makes
`update_scores` return an error for the whole run — there is no aggregate
failed-player list and no `Ok` result, contradicting the claim. -/
theorem c5_counterexample :
    update_scores (Except.ok []) [RunEvent.sanbaiScores 0 (Except.error Error.httpError)]
      []
      [{ name := "p", ddr_code := 1, sanbai_username := some "p",
         scores := SongMap.empty }] =
    RunResult.err Error.httpError := rfl

theorem c5_per_player_failure_witness :
    (RunEvent.sanbaiScores 0 (Except.error Error.httpError) ∈
      [RunEvent.sanbaiScores 0 (Except.error Error.httpError)]) ∧
    (∀ ev ∈ [RunEvent.sanbaiScores 0 (Except.error Error.httpError)],
      eventNoPanic
        ([{ name := "p", ddr_code := 1, sanbai_username := some "p", scores := SongMap.empty }] :
          List Player).length ev) ∧
    ∃ e', update_scores (Except.ok ([] : List SanbaiSong))
        [RunEvent.sanbaiScores 0 (Except.error Error.httpError)] []
        [{ name := "p", ddr_code := 1, sanbai_username := some "p",
           scores := SongMap.empty }] =
      RunResult.err e' := by
  refine ⟨List.mem_cons_self _ _, ?_, ?_⟩
  · intro ev hev
    rcases List.mem_cons.mp hev with rfl | h
    · exact trivial
    · exact absurd h (List.not_mem_nil _)
  · exact c5_per_player_failure [] _ [] _ 0 Error.httpError (List.mem_cons_self _ _)
      (by
        intro ev hev
        rcases List.mem_cons.mp hev with rfl | h
        · exact trivial
        · exact absurd h (List.not_mem_nil _))

theorem c4_degraded_run_witness :
    saSongEventsFail
      [RunEvent.saSongList (Except.error Error.httpError),
        RunEvent.sanbaiScores 0 (Except.ok [⟨"song1", 2, 900000, LampType.GreatCombo⟩]),
        RunEvent.saScores 0 (Except.error Error.httpError)] ∧
    sanbaiEventsOk
      [RunEvent.saSongList (Except.error Error.httpError),
        RunEvent.sanbaiScores 0 (Except.ok [⟨"song1", 2, 900000, LampType.GreatCombo⟩]),
        RunEvent.saScores 0 (Except.error Error.httpError)]
      ([{ name := "p", ddr_code := 1, sanbai_username := some "p",
          scores := SongMap.empty }] : List Player).length ∧
    (∃ e, RunEvent.saSongList (Except.error e) ∈
      [RunEvent.saSongList (Except.error Error.httpError),
        RunEvent.sanbaiScores 0 (Except.ok [⟨"song1", 2, 900000, LampType.GreatCombo⟩]),
        RunEvent.saScores 0 (Except.error Error.httpError)]) ∧
    (∃ st', update_scores (Except.ok [{ song_id := "song1", song_name := "Song" }])
        [RunEvent.saSongList (Except.error Error.httpError),
          RunEvent.sanbaiScores 0 (Except.ok [⟨"song1", 2, 900000, LampType.GreatCombo⟩]),
          RunEvent.saScores 0 (Except.error Error.httpError)] []
        [{ name := "p", ddr_code := 1, sanbai_username := some "p",
           scores := SongMap.empty }] =
        RunResult.ok st' ∧
      ∀ d ∈ st'.songs, d.skill_attack_index = none) := by
  have hfail : saSongEventsFail
      [RunEvent.saSongList (Except.error Error.httpError),
        RunEvent.sanbaiScores 0 (Except.ok [⟨"song1", 2, 900000, LampType.GreatCombo⟩]),
        RunEvent.saScores 0 (Except.error Error.httpError)] := by
    intro res h
    simp only [List.mem_cons, List.not_mem_nil, or_false] at h
    rcases h with h | h | h
    · exact ⟨Error.httpError, by injection h⟩
    · exact absurd h (by simp)
    · exact absurd h (by simp)
  have hok : sanbaiEventsOk
      [RunEvent.saSongList (Except.error Error.httpError),
        RunEvent.sanbaiScores 0 (Except.ok [⟨"song1", 2, 900000, LampType.GreatCombo⟩]),
        RunEvent.saScores 0 (Except.error Error.httpError)] 1 := by
    intro i res h
    simp only [List.mem_cons, List.not_mem_nil, or_false] at h
    rcases h with h | h | h
    · exact absurd h (by simp)
    · obtain ⟨hi, hres⟩ := by
        have := h
        simp only [RunEvent.sanbaiScores.injEq] at this
        exact this
      exact ⟨[⟨"song1", 2, 900000, LampType.GreatCombo⟩], hres, by omega, by decide⟩
    · exact absurd h (by simp)
  have hmem : ∃ e, RunEvent.saSongList (Except.error e) ∈
      [RunEvent.saSongList (Except.error Error.httpError),
        RunEvent.sanbaiScores 0 (Except.ok [⟨"song1", 2, 900000, LampType.GreatCombo⟩]),
        RunEvent.saScores 0 (Except.error Error.httpError)] :=
    ⟨Error.httpError, List.mem_cons_self _ _⟩
  exact ⟨hfail, hok, hmem,
    (c4_degraded_run [{ song_id := "song1", song_name := "Song" }] _ []
      [{ name := "p", ddr_code := 1, sanbai_username := some "p", scores := SongMap.empty }]
      hfail hok hmem).2⟩

end DDR
